import Mathlib

/-!
Verification of the playout (jitter) buffer from src/rtp/pbuf.cpp.

The C linked structures are embedded as Lean lists: the frame sequence
(frst..last, doubly linked in C) becomes a `List pbuf_node` in head-to-tail
order, and the per-frame coded-data list becomes a `List coded_data`.
Machine integers are modelled as `Nat`/`Int` with explicit reductions
modulo 2^16 / 2^32 / 2^64 where the C types force wraparound.  The
statistics bitmap `unsigned long long packets[1024]` is modelled as a
1024-entry list of word values indexed by word number (all word indices
used are < 1024 because sequence numbers are reduced mod 2^16).  Wall-clock time
(`std::chrono::high_resolution_clock::time_point`) is modelled as an `Int`
counting microseconds; the caller-supplied clock reading becomes an
explicit `now` argument.  The `volatile int *offset_ms` external knob is
modelled as an `Option Int` argument read at insertion time (`none` for a
null pointer).
-/

/-- 16-bit reduction, the value of a `uint16_t`. -/
def u16 (n : Nat) : Nat := n % 65536

/-- `uint16_t` subtraction `a - b` (wraparound). -/
def u16sub (a b : Nat) : Nat := (a % 65536 + 65536 - b % 65536) % 65536

/-- `uint32_t` subtraction `a - b` (wraparound). -/
def u32sub (a b : Nat) : Nat :=
  (a % 4294967296 + 4294967296 - b % 4294967296) % 4294967296

/-- Reinterpret a 16-bit value as a signed `int16_t`. -/
def toI16 (n : Nat) : Int :=
  if n % 65536 < 32768 then (n % 65536 : Int) else (n % 65536 : Int) - 65536

/-- The comparator `(int16_t)(a - b)` used for sequence numbers
(pbuf.cpp lines 253, 260, 268). -/
def seqI16 (a b : Nat) : Int := toI16 (u16sub a b)

/-- Population count of the low `fuel` bits (models `__builtin_popcountll`
when the argument is below `2 ^ fuel`). -/
def popAux : Nat → Nat → Nat
  | 0, _ => 0
  | fuel + 1, w => if w = 0 then 0 else w % 2 + popAux fuel (w / 2)

/-- `__builtin_popcountll` on a 64-bit word. -/
def popcount64 (w : Nat) : Nat := popAux 64 w

/-- Count of trailing zero bits, scanning at most `fuel` bits. -/
def ctzAux : Nat → Nat → Nat
  | 0, _ => 0
  | fuel + 1, w => if w % 2 = 1 then 0 else ctzAux fuel (w / 2) + 1

/-- `__builtin_ctzll` on a nonzero 64-bit word. -/
def ctz64 (w : Nat) : Nat := ctzAux 64 w

/-- Number of significant bits of `w`, scanning at most `fuel` bits. -/
def bitlenAux : Nat → Nat → Nat
  | 0, _ => 0
  | fuel + 1, w => if w = 0 then 0 else bitlenAux fuel (w / 2) + 1

/-- Bit length of a 64-bit word. -/
def bitlen64 (w : Nat) : Nat := bitlenAux 64 w

/-- `__builtin_clzll` on a nonzero 64-bit word. -/
def clz64 (w : Nat) : Nat := 64 - bitlen64 w

/-- The `while (packets != 0)` loop of `compute_longest_gap`
(pbuf.cpp lines 329-332): fold the trailing-zero count of every right
shift of the word into the running maximum.  A 64-bit word is zero after
at most 64 shifts, so fuel 64 is exact. -/
def gapLoop : Nat → Nat → Nat → Nat
  | 0, g, _ => g
  | fuel + 1, g, w => if w = 0 then g else gapLoop fuel (max g (ctz64 w)) (w / 2)

/-- `compute_longest_gap` (pbuf.cpp lines 313-333): fold one flushed
64-bit word of per-sequence received bits into the running longest-gap
maximum. -/
def compute_longest_gap (longest_gap : Nat) (packets : Nat) : Nat :=
  if longest_gap = 64 then longest_gap
  else if packets = 0 then 64
  else if packets = 18446744073709551615 then longest_gap
  else gapLoop 64 (max longest_gap (clz64 packets)) packets

/-- An RTP packet as consumed by the buffer (`rtp_packet`): media
timestamp (`uint32_t ts`), sequence number (`uint16_t seq`), marker bit
`m`, source id `ssrc`.  The payload is irrelevant to the buffer logic and
is represented by an opaque tag so distinct packets stay distinguishable. -/
structure rtp_packet where
  ts : Nat
  seq : Nat
  m : Bool
  ssrc : Nat
  payload : Nat
deriving DecidableEq

/-- One node of the per-frame coded-data list (`struct coded_data`):
the stored sequence number and the owned packet. -/
structure coded_data where
  seqno : Nat
  data : rtp_packet
deriving DecidableEq

/-- One frame of the playout buffer (`struct pbuf_node`).  The `nxt`/`prv`
pointers are replaced by the position in the buffer's frame list, and the
debugging `magic` field is dropped. -/
structure pbuf_node where
  rtp_timestamp : Nat
  arrival_time : Int
  playout_time : Int
  cdata : List coded_data
  decoded : Bool
  mbit : Bool
  completed : Bool
deriving DecidableEq

/-- The statistics snapshot handed to the decode callback
(`struct pbuf_stats`). -/
structure pbuf_stats where
  received_pkts_cum : Int
  expected_pkts_cum : Int
deriving DecidableEq

/-- The playout buffer (`struct pbuf`).  `frst`/`last` become the list
`frames` (head = frst, last element = last); the 1024-word statistics
bitmap becomes the 1024-entry list `packets` of word values;
`last_report_seq == -1` becomes `none`. -/
structure pbuf where
  frames : List pbuf_node
  playout_delay_us : Int
  packets : List Nat
  last_report_seq : Option Nat
  received_pkts : Int
  expected_pkts : Int
  received_pkts_cum : Int
  expected_pkts_cum : Int
  last_display_ts : Nat
  longest_gap : Nat
  out_of_order_pkts : Bool
  dups : Bool
deriving DecidableEq

/-- `frame_complete` (pbuf.cpp lines 504-515): a frame is complete iff
its marker bit has been seen or it has been marked completed. -/
def frame_complete (frame : pbuf_node) : Bool :=
  frame.mbit || frame.completed

/-- `pbuf_init` (pbuf.cpp lines 175-193): zero-initialised buffer with a
fixed 32 ms playout delay and `last_report_seq = -1`. -/
def pbuf_init : pbuf where
  frames := []
  playout_delay_us := 32000
  packets := List.replicate 1024 0
  last_report_seq := none
  received_pkts := 0
  expected_pkts := 0
  received_pkts_cum := 0
  expected_pkts_cum := 0
  last_display_ts := 0
  longest_gap := 0
  out_of_order_pkts := false
  dups := false

/-- `pbuf_set_playout_delay` (pbuf.cpp lines 562-565).  The C parameter is
a `double` measured in seconds; it is modelled at exact integer values,
`playout_delay_us = playout_delay * 1000 * 1000`. -/
def pbuf_set_playout_delay (playout_buf : pbuf) (playout_delay : Int) : pbuf :=
  { playout_buf with playout_delay_us := playout_delay * 1000000 }

/-- The insertion scan of `add_coded_unit` (pbuf.cpp lines 259-277): walk
the descending list while the new sequence number compares below the
current node; insert before the first node it compares above; append when
the scan runs off the end; drop the packet when an equal sequence number
is reached. -/
def insertScan (pkt : rtp_packet) : List coded_data → List coded_data
  | [] => [⟨pkt.seq, pkt⟩]
  | c :: rest =>
    if seqI16 pkt.seq c.seqno < 0 then c :: insertScan pkt rest
    else if seqI16 pkt.seq c.seqno > 0 then ⟨pkt.seq, pkt⟩ :: c :: rest
    else c :: rest

/-- `add_coded_unit` (pbuf.cpp lines 236-279): file `pkt` into the frame's
coded-data list in descending sequence order.  The marker bit is folded in
(`node->mbit |= pkt->m`) before the list logic, so it is updated even when
the packet is dropped as a duplicate.  A packet whose sequence compares
above the head is prepended; otherwise the scan of `insertScan` runs. -/
def add_coded_unit (node : pbuf_node) (pkt : rtp_packet) : pbuf_node :=
  let node := { node with mbit := node.mbit || pkt.m }
  match node.cdata with
  | [] => node
  | c :: rest =>
    if seqI16 pkt.seq c.seqno > 0 then
      { node with cdata := ⟨pkt.seq, pkt⟩ :: c :: rest }
    else
      { node with cdata := insertScan pkt (c :: rest) }

/-- `create_new_pnode` (pbuf.cpp lines 281-311): fresh frame seeded with
`pkt`; arrival time is the clock reading `now`, playout time is arrival
plus the delay argument. -/
def create_new_pnode (pkt : rtp_packet) (playout_delay_us : Int) (now : Int) : pbuf_node where
  rtp_timestamp := pkt.ts
  arrival_time := now
  playout_time := now + playout_delay_us
  cdata := [⟨pkt.seq, pkt⟩]
  decoded := false
  mbit := pkt.m
  completed := false

/-- The backward scan of `pbuf_insert` for packets of an earlier frame
(pbuf.cpp lines 426-436), expressed on the reversed frame list
(`[last, ..., frst]`): walk towards `frst` while the current frame's
timestamp exceeds the packet's, stopping at `frst`; add the packet to the
frame whose timestamp matches, or return `none` (discard) when the scan
stops without a match. -/
def addPrevRev (pkt : rtp_packet) : List pbuf_node → Option (List pbuf_node)
  | [] => none
  | [h] =>
    if h.rtp_timestamp = pkt.ts then some [add_coded_unit h pkt] else none
  | c :: rest =>
    if c.rtp_timestamp > pkt.ts then (addPrevRev pkt rest).map (c :: ·)
    else if c.rtp_timestamp = pkt.ts then some (add_coded_unit c pkt :: rest)
    else none

/-- The startup loop of `pbuf_insert` (pbuf.cpp lines 346-349): mark
`count` sequence slots starting at `i` as received, to avoid false loss
before the first real packet. -/
def presetLoop (packets : List Nat) (i : Nat) : Nat → List Nat
  | 0 => packets
  | count + 1 =>
    let wi := i % 65536 / 64
    let updated := packets.set wi (packets.getD wi 0 ||| (1 <<< (i % 64)))
    presetLoop updated ((i + 1) % 65536) count

/-- The flush loop of `pbuf_insert` (pbuf.cpp lines 361-367): for `count`
windows starting at sequence `i` and stepping by the 64-bit word width,
add the word width to the expected count, the word's population count to
the received count, fold the word into the longest-gap estimator, then
clear the word. -/
def flushLoop (playout_buf : pbuf) (i : Nat) : Nat → pbuf
  | 0 => playout_buf
  | count + 1 =>
    let wi := i % 65536 / 64
    let w := playout_buf.packets.getD wi 0
    let playout_buf :=
      { playout_buf with
        expected_pkts := playout_buf.expected_pkts + 64
        received_pkts := playout_buf.received_pkts + popcount64 w
        longest_gap := compute_longest_gap playout_buf.longest_gap w
        packets := playout_buf.packets.set wi 0 }
    flushLoop playout_buf ((i + 64) % 65536) count

/-- The statistics section of `pbuf_insert` (pbuf.cpp lines 342-373):
initialise the report cursor on the first packet, record the packet's bit
(flagging duplicates and same-word reordering), and flush every fully
elapsed window once the cursor falls at least two report intervals behind
the newest sequence (wraparound-safe distance).  The flush loop steps by
64 from the cursor to `report_seq_until`; both are multiples of 128, so
the number of iterations is their wraparound distance divided by 64.
After the flush the window counters are added to the cumulative
counters. -/
def statsPhase (playout_buf : pbuf) (pkt : rtp_packet) : pbuf :=
  let s := pkt.seq % 65536
  let playout_buf :=
    match playout_buf.last_report_seq with
    | none =>
      let cursor := s / 128 * 128
      { playout_buf with
        last_report_seq := some cursor
        packets := presetLoop playout_buf.packets cursor (u16sub s cursor) }
    | some _ => playout_buf
  let cursor := playout_buf.last_report_seq.getD 0
  let wi := s / 64
  let current_bit := 1 <<< (s % 64)
  let word := playout_buf.packets.getD wi 0
  let playout_buf :=
    if word &&& (18446744073709551615 - current_bit) > current_bit then
      { playout_buf with out_of_order_pkts := true }
    else playout_buf
  let playout_buf :=
    if word &&& current_bit ≠ 0 then { playout_buf with dups := true }
    else playout_buf
  let playout_buf :=
    { playout_buf with
      packets := playout_buf.packets.set wi (playout_buf.packets.getD wi 0 ||| current_bit) }
  if u16sub s cursor ≥ 256 then
    let report_seq_until := (s / 128 * 128 + 65536 - 128) % 65536
    let playout_buf := flushLoop playout_buf cursor (u16sub report_seq_until cursor / 64)
    { playout_buf with
      received_pkts_cum := playout_buf.received_pkts_cum + playout_buf.received_pkts
      expected_pkts_cum := playout_buf.expected_pkts_cum + playout_buf.expected_pkts
      last_report_seq := some report_seq_until }
  else playout_buf

/-- The reporting section of `pbuf_insert` (pbuf.cpp lines 376-396): when
the media timestamp has advanced by more than five seconds of the 90 kHz
clock past the last report and at least one packet was expected, emit the
report (logging only) and reset the window counters and flags; the
cumulative counters are untouched. -/
def reportPhase (playout_buf : pbuf) (pkt : rtp_packet) : pbuf :=
  if u32sub pkt.ts playout_buf.last_display_ts > 450000 ∧ playout_buf.expected_pkts > 0 then
    { playout_buf with
      expected_pkts := 0
      received_pkts := 0
      last_display_ts := pkt.ts % 4294967296
      longest_gap := 0
      out_of_order_pkts := false
      dups := false }
  else playout_buf

/-- The frame-store section of `pbuf_insert` (pbuf.cpp lines 398-447):
an empty buffer gets a fresh frame; a packet with the tail's timestamp is
filed into the tail; a later timestamp marks the outgoing tail completed
and links a fresh tail; an earlier timestamp is looked up by the backward
scan (discarding packets older than the head or without a matching
frame). -/
def framePhase (playout_buf : pbuf) (pkt : rtp_packet) (now : Int)
    (offset_ms : Option Int) : pbuf :=
  let delay := playout_buf.playout_delay_us + 1000 * offset_ms.getD 0
  match playout_buf.frames.getLast? with
  | none => { playout_buf with frames := [create_new_pnode pkt delay now] }
  | some last =>
    if last.rtp_timestamp = pkt.ts then
      { playout_buf with
        frames := playout_buf.frames.dropLast ++ [add_coded_unit last pkt] }
    else if last.rtp_timestamp < pkt.ts then
      { playout_buf with
        frames := playout_buf.frames.dropLast ++
          [{ last with completed := true }, create_new_pnode pkt delay now] }
    else
      match playout_buf.frames.head? with
      | none => playout_buf
      | some frst =>
        if frst.rtp_timestamp > pkt.ts then playout_buf
        else
          match addPrevRev pkt playout_buf.frames.reverse with
          | some r => { playout_buf with frames := r.reverse }
          | none => playout_buf

/-- `pbuf_insert` (pbuf.cpp lines 335-448): statistics first, then the
five-second report check, then the frame-store update. -/
def pbuf_insert (playout_buf : pbuf) (pkt : rtp_packet) (now : Int)
    (offset_ms : Option Int) : pbuf :=
  framePhase (reportPhase (statsPhase playout_buf pkt) pkt) pkt now offset_ms

/-- The scan of `pbuf_decode` (pbuf.cpp lines 537-558): walk the frames
from the head; the first undecoded frame past its playout time that is
complete is handed to the callback and marked decoded, ending the scan;
an undecoded, due but incomplete frame is marked completed once the
one-second grace period has elapsed, and the scan continues. -/
def decodeScan (now : Int) (decode_func : List coded_data → pbuf_stats → Int)
    (stats : pbuf_stats) : List pbuf_node → Int × List pbuf_node
  | [] => (0, [])
  | curr :: rest =>
    if curr.decoded = false ∧ now > curr.playout_time then
      if frame_complete curr then
        (decode_func curr.cdata stats, { curr with decoded := true } :: rest)
      else
        let curr' := if now > curr.playout_time + 1000000
                     then { curr with completed := true } else curr
        let p := decodeScan now decode_func stats rest
        (p.1, curr' :: p.2)
    else
      let p := decodeScan now decode_func stats rest
      (p.1, curr :: p.2)

/-- `pbuf_decode` (pbuf.cpp lines 525-560): scan the frames with the
cumulative-counter snapshot; return the callback's result, or 0 when no
frame was decoded. -/
def pbuf_decode (playout_buf : pbuf) (curr_time : Int)
    (decode_func : List coded_data → pbuf_stats → Int) : Int × pbuf :=
  let stats : pbuf_stats :=
    ⟨playout_buf.received_pkts_cum, playout_buf.expected_pkts_cum⟩
  let p := decodeScan curr_time decode_func stats playout_buf.frames
  (p.1, { playout_buf with frames := p.2 })

/-- The scan of `pbuf_remove` (pbuf.cpp lines 472-498): free every leading
frame that is past its playout time and complete; stop at the first frame
failing the test. -/
def removeScan (curr_time : Int) : List pbuf_node → List pbuf_node
  | [] => []
  | curr :: rest =>
    if curr_time > curr.playout_time ∧ frame_complete curr then
      removeScan curr_time rest
    else curr :: rest

/-- `pbuf_remove` (pbuf.cpp lines 462-502). -/
def pbuf_remove (playout_buf : pbuf) (curr_time : Int) : pbuf :=
  { playout_buf with frames := removeScan curr_time playout_buf.frames }

/-- A frame is decodable at `now`: undecoded, past its playout time, and
complete (the condition under which `pbuf_decode` fires the callback). -/
def decodable (now : Int) (frame : pbuf_node) : Prop :=
  frame.decoded = false ∧ now > frame.playout_time ∧ frame_complete frame = true

instance (now : Int) (frame : pbuf_node) : Decidable (decodable now frame) := by
  unfold decodable; infer_instance

/-- The effect of one `pbuf_decode` scan on a frame it passes over without
decoding: an undecoded, due, incomplete frame is marked completed once the
one-second grace period has elapsed; every other frame is unchanged. -/
def markExpired (now : Int) (frame : pbuf_node) : pbuf_node :=
  if frame.decoded = false ∧ now > frame.playout_time ∧ frame_complete frame = false ∧
      now > frame.playout_time + 1000000 then
    { frame with completed := true }
  else frame

/-- The eviction test of `pbuf_remove` (pbuf.cpp line 475): past the
playout time and complete. -/
def removeCheck (now : Int) (frame : pbuf_node) : Bool :=
  decide (now > frame.playout_time) && frame_complete frame

/-- Modelled from the spec: the longest-gap update it describes, where
only the runs of unset bits touching an edge of the word contribute, found
via the leading- and trailing-zero counts, and the recorded value is the
running maximum of those edge-touching runs. -/
def longestGapSpecEdge (longest_gap : Nat) (packets : Nat) : Nat :=
  if packets = 0 then 64
  else max longest_gap (max (clz64 packets) (ctz64 packets))

/-- Longest contiguous run of unset bits in the low 64 bits, by a single
left-to-right scan holding the current run and the best run seen. -/
def lzrAux : Nat → Nat → Nat → Nat → Nat
  | 0, _, _, best => best
  | fuel + 1, w, cur, best =>
    if w % 2 = 0 then lzrAux fuel (w / 2) (cur + 1) (max best (cur + 1))
    else lzrAux fuel (w / 2) 0 best

/-- Longest contiguous run of unset bits in a 64-bit word. -/
def longestZeroRun64 (w : Nat) : Nat := lzrAux 64 w 0 0

/-- Maximum length over the closed runs of unset bits (runs terminated by
a set bit) in the low `fuel` bits, given a run of `cur` zeros already
open. -/
def rbtAux : Nat → Nat → Nat → Nat → Nat
  | 0, _, _, best => best
  | fuel + 1, w, cur, best =>
    if w % 2 = 0 then rbtAux fuel (w / 2) (cur + 1) best
    else rbtAux fuel (w / 2) 0 (max best cur)

/-- A marker-less test packet. -/
def mkPkt (ts seqn : Nat) : rtp_packet := ⟨ts, seqn, false, 0, 0⟩

/-- Insert a list of marker-less packets with timestamp 100 at time 0. -/
def insertSeqs (playout_buf : pbuf) (seqs : List Nat) : pbuf :=
  seqs.foldl (fun b s => pbuf_insert b (mkPkt 100 s) 0 none) playout_buf

/-- Complete test frame: marker seen, playout time 0. -/
def frameA : pbuf_node := ⟨100, 0, 0, [⟨1, mkPkt 100 1⟩], false, true, false⟩

/-- Incomplete test frame at playout time 0 (no marker, not completed). -/
def frameI : pbuf_node := ⟨100, 0, 0, [⟨1, mkPkt 100 1⟩], false, false, false⟩

/-- Incomplete test frame at playout time 5. -/
def frameB : pbuf_node := ⟨200, 5, 5, [⟨2, mkPkt 200 2⟩], false, false, false⟩

/-- Complete test frame at playout time 8 (marker seen). -/
def frameC : pbuf_node := ⟨300, 8, 8, [⟨3, mkPkt 300 3⟩], false, true, false⟩

/-- Test buffer holding an incomplete overdue frame before a complete one. -/
def bufD : pbuf := { pbuf_init with frames := [frameI, frameC] }

/-- Test buffer holding a removable frame before a pending one. -/
def bufR : pbuf := { pbuf_init with frames := [frameA, frameB] }

/-- Test callback: seven times the packet count of the frame. -/
def cbW : List coded_data → pbuf_stats → Int := fun cd _ => (cd.length : Int) * 7

/-- The Scenario D packet sequence: 130 consecutive sequence numbers with
seq 50 missing. -/
def scenarioD : List Nat := (List.range 130).filter (· ≠ 50)

/-- Buffer state after inserting the first 44 packets of Scenario D. -/
def ckD1 : pbuf :=
  { frames := [⟨100, 0, 32000,
      ((List.range 44).reverse.map fun s => ⟨s, mkPkt 100 s⟩), false, false, false⟩]
    playout_delay_us := 32000
    packets := 17592186044415 :: List.replicate 1023 0
    last_report_seq := some 0
    received_pkts := 0
    expected_pkts := 0
    received_pkts_cum := 0
    expected_pkts_cum := 0
    last_display_ts := 0
    longest_gap := 0
    out_of_order_pkts := false
    dups := false }

/-- Buffer state after inserting the first 87 packets of Scenario D. -/
def ckD2 : pbuf :=
  { frames := [⟨100, 0, 32000,
      (((List.range 88).filter (· ≠ 50)).reverse.map fun s => ⟨s, mkPkt 100 s⟩),
      false, false, false⟩]
    playout_delay_us := 32000
    packets := 18445618173802708991 :: 16777215 :: List.replicate 1022 0
    last_report_seq := some 0
    received_pkts := 0
    expected_pkts := 0
    received_pkts_cum := 0
    expected_pkts_cum := 0
    last_display_ts := 0
    longest_gap := 0
    out_of_order_pkts := false
    dups := false }

/-- Buffer state after inserting all 129 packets of Scenario D. -/
def ckD3 : pbuf :=
  { frames := [⟨100, 0, 32000,
      (scenarioD.reverse.map fun s => ⟨s, mkPkt 100 s⟩), false, false, false⟩]
    playout_delay_us := 32000
    packets := 18445618173802708991 :: 18446744073709551615 :: 3 :: List.replicate 1021 0
    last_report_seq := some 0
    received_pkts := 0
    expected_pkts := 0
    received_pkts_cum := 0
    expected_pkts_cum := 0
    last_display_ts := 0
    longest_gap := 0
    out_of_order_pkts := false
    dups := false }

/-- The per-frame packet list ordering invariant: each packet strictly
precedes its predecessor under the wire comparator, i.e. for adjacent
packets the signed 16-bit difference (int16_t)(next - prev) is negative,
so the list is strictly descending with the highest sequence nearest the
head. -/
def cdataDescending (l : List coded_data) : Prop :=
  List.Chain' (fun x y => seqI16 y.seqno x.seqno < 0) l

instance (l : List coded_data) : Decidable (cdataDescending l) :=
  inferInstanceAs (Decidable (List.Chain' _ l))

/-- A frame whose packet sequence numbers wrap all the way around the
16-bit circle: seeded with seq 60000, then 10000, 40000, 50000 and 60000
again, each inserted by add_coded_unit. -/
def wrapNode : pbuf_node :=
  add_coded_unit (add_coded_unit (add_coded_unit (add_coded_unit
    (create_new_pnode (mkPkt 100 60000) 32000 0)
    (mkPkt 100 10000)) (mkPkt 100 40000)) (mkPkt 100 50000)) (mkPkt 100 60000)

/-! ## Structural lemmas -/

theorem flushLoop_preserves : ∀ (k : Nat) (b : pbuf) (i : Nat),
    (flushLoop b i k).frames = b.frames ∧
    (flushLoop b i k).playout_delay_us = b.playout_delay_us ∧
    (flushLoop b i k).last_report_seq = b.last_report_seq ∧
    (flushLoop b i k).last_display_ts = b.last_display_ts ∧
    (flushLoop b i k).dups = b.dups ∧
    (flushLoop b i k).out_of_order_pkts = b.out_of_order_pkts ∧
    (flushLoop b i k).received_pkts_cum = b.received_pkts_cum ∧
    (flushLoop b i k).expected_pkts_cum = b.expected_pkts_cum := by
  intro k
  induction k with
  | zero => intro b i; exact ⟨rfl, rfl, rfl, rfl, rfl, rfl, rfl, rfl⟩
  | succ n ih =>
    intro b i
    simpa [flushLoop] using ih _ ((i + 64) % 65536)

theorem statsPhase_preserves (b : pbuf) (pkt : rtp_packet) :
    (statsPhase b pkt).frames = b.frames ∧
    (statsPhase b pkt).playout_delay_us = b.playout_delay_us ∧
    (statsPhase b pkt).last_display_ts = b.last_display_ts := by
  unfold statsPhase
  cases b.last_report_seq <;>
    simp only [] <;>
    split <;> split <;> split <;>
    simp_all [flushLoop_preserves]

theorem reportPhase_preserves (b : pbuf) (pkt : rtp_packet) :
    (reportPhase b pkt).frames = b.frames ∧
    (reportPhase b pkt).playout_delay_us = b.playout_delay_us ∧
    (reportPhase b pkt).received_pkts_cum = b.received_pkts_cum ∧
    (reportPhase b pkt).expected_pkts_cum = b.expected_pkts_cum ∧
    (reportPhase b pkt).last_report_seq = b.last_report_seq ∧
    (reportPhase b pkt).packets = b.packets := by
  unfold reportPhase
  split <;> simp

theorem framePhase_preserves (b : pbuf) (pkt : rtp_packet) (now : Int)
    (off : Option Int) :
    (framePhase b pkt now off).received_pkts = b.received_pkts ∧
    (framePhase b pkt now off).expected_pkts = b.expected_pkts ∧
    (framePhase b pkt now off).received_pkts_cum = b.received_pkts_cum ∧
    (framePhase b pkt now off).expected_pkts_cum = b.expected_pkts_cum ∧
    (framePhase b pkt now off).dups = b.dups ∧
    (framePhase b pkt now off).longest_gap = b.longest_gap ∧
    (framePhase b pkt now off).last_report_seq = b.last_report_seq := by
  unfold framePhase
  cases b.frames.getLast? <;> simp only []
  · simp
  · split
    · simp
    · split
      · simp
      · cases b.frames.head? <;> simp only []
        · simp
        · split
          · simp
          · cases addPrevRev pkt b.frames.reverse <;> simp

theorem removeScan_eq_dropWhile (now : Int) :
    ∀ l : List pbuf_node, removeScan now l = l.dropWhile (removeCheck now) := by
  intro l
  induction l with
  | nil => rfl
  | cons f rest ih =>
    by_cases h : now > f.playout_time ∧ frame_complete f = true
    · have hb : removeCheck now f = true := by
        simp [removeCheck, h.1, h.2]
      simp [removeScan, List.dropWhile, hb, h, ih]
    · have hb : removeCheck now f = false := by
        simp only [removeCheck, Bool.and_eq_false_iff, decide_eq_false_iff_not]
        by_cases h1 : now > f.playout_time
        · exact Or.inr (by simpa [h1] using fun hc => h ⟨h1, hc⟩)
        · exact Or.inl h1
      simp [removeScan, List.dropWhile, hb, h]

theorem mem_takeWhile_check (now : Int) :
    ∀ (l : List pbuf_node) (f : pbuf_node), f ∈ l.takeWhile (removeCheck now) →
      now > f.playout_time ∧ frame_complete f = true := by
  intro l
  induction l with
  | nil => intro f h; simp [List.takeWhile] at h
  | cons g rest ih =>
    intro f h
    rw [List.takeWhile] at h
    cases hg : removeCheck now g with
    | false => simp [hg] at h
    | true =>
      simp only [hg, List.mem_cons] at h
      rcases h with h | h
      · subst h
        have := hg
        simp only [removeCheck, Bool.and_eq_true, decide_eq_true_eq] at this
        exact this
      · exact ih f h

/-- C3: Remove(now) evicts exactly the leading run of frames that are past
their playout time and complete (marker-seen or forced-complete): the
surviving frames are the drop-while of the eviction test, the original
frame list is the evicted leading run followed by the survivors, and every
evicted frame was strictly past its playout time and complete — so no
future-dated and no incomplete frame is ever evicted. -/
theorem pbuf_remove_leading_run_spec (now : Int) (buf : pbuf) :
    (pbuf_remove buf now).frames = buf.frames.dropWhile (removeCheck now) ∧
    buf.frames = buf.frames.takeWhile (removeCheck now) ++ (pbuf_remove buf now).frames ∧
    ∀ f ∈ buf.frames.takeWhile (removeCheck now),
      now > f.playout_time ∧ frame_complete f = true := by
  refine ⟨removeScan_eq_dropWhile now buf.frames, ?_, mem_takeWhile_check now buf.frames⟩
  rw [show (pbuf_remove buf now).frames = removeScan now buf.frames from rfl,
    removeScan_eq_dropWhile now buf.frames]
  exact (List.takeWhile_append_dropWhile (p := removeCheck now) (l := buf.frames)).symm

/-- Witness for C3 at a concrete buffer: the due complete head frame is
evicted, the pending frame survives, and the evicted frame passes the
safety test. -/
theorem pbuf_remove_leading_run_spec_witness :
    ((pbuf_remove bufR 3).frames = bufR.frames.dropWhile (removeCheck 3) ∧
      (pbuf_remove bufR 3).frames = [frameB]) ∧
    (3 > frameA.playout_time ∧ frame_complete frameA = true) :=
  ⟨⟨(pbuf_remove_leading_run_spec 3 bufR).1, by decide⟩,
    (pbuf_remove_leading_run_spec 3 bufR).2.2 frameA (by decide)⟩

theorem framePhase_new_tail (b : pbuf) (pkt : rtp_packet) (now : Int)
    (off : Option Int) (front : List pbuf_node) (tl : pbuf_node)
    (hf : b.frames = front ++ [tl]) (hlt : tl.rtp_timestamp < pkt.ts) :
    (framePhase b pkt now off).frames =
      front ++ [{ tl with completed := true },
        create_new_pnode pkt (b.playout_delay_us + 1000 * off.getD 0) now] := by
  simp [framePhase, hf, List.getLast?_concat, List.dropLast_concat,
    Nat.ne_of_lt hlt, hlt]

/-- C1 (amended): when the frame store is non-empty and a packet arrives
whose media timestamp is strictly greater than the tail frame's, a new
tail frame is created from the packet and linked after the old tail, and
the outgoing tail frame is marked completed (pbuf.cpp line 414), making it
complete. -/
theorem pbuf_insert_new_tail_marks_completed
    (buf : pbuf) (pkt : rtp_packet) (now : Int) (off : Option Int)
    (front : List pbuf_node) (tl : pbuf_node)
    (hf : buf.frames = front ++ [tl]) (hlt : tl.rtp_timestamp < pkt.ts) :
    (pbuf_insert buf pkt now off).frames =
      front ++ [{ tl with completed := true },
        create_new_pnode pkt (buf.playout_delay_us + 1000 * off.getD 0) now] ∧
    frame_complete { tl with completed := true } = true := by
  have h1 := statsPhase_preserves buf pkt
  have h2 := reportPhase_preserves (statsPhase buf pkt) pkt
  constructor
  · show (framePhase (reportPhase (statsPhase buf pkt) pkt) pkt now off).frames = _
    rw [framePhase_new_tail _ pkt now off front tl (by rw [h2.1, h1.1, hf]) hlt,
      h2.2.1, h1.2.1]
  · simp [frame_complete]

/-- Witness for C1 at a concrete input: a buffer holding one ts=100 frame
receives a ts=200 packet. -/
theorem pbuf_insert_new_tail_marks_completed_witness :
    (({ pbuf_init with frames := [frameI] } : pbuf).frames = [] ++ [frameI] ∧
      frameI.rtp_timestamp < (mkPkt 200 2).ts) ∧
    ((pbuf_insert { pbuf_init with frames := [frameI] } (mkPkt 200 2) 0 none).frames =
      [] ++ [{ frameI with completed := true },
        create_new_pnode (mkPkt 200 2)
          (({ pbuf_init with frames := [frameI] } : pbuf).playout_delay_us +
            1000 * (none : Option Int).getD 0) 0] ∧
     frame_complete { frameI with completed := true } = true) :=
  ⟨⟨rfl, by decide⟩,
    pbuf_insert_new_tail_marks_completed _ (mkPkt 200 2) 0 none [] frameI rfl (by decide)⟩

/-- Counterexample for C1 as stated: after inserting a ts=100 packet
(seq 1, no marker) and then a ts=200 packet (seq 2), the ts=100 frame is
complete — its completed flag was set when the successor frame was
created — contradicting the claim that it is not complete. -/
theorem pbuf_insert_new_tail_cex :
    ((pbuf_insert (pbuf_insert pbuf_init (mkPkt 100 1) 0 none) (mkPkt 200 2) 0 none).frames.map
      (fun f => (f.rtp_timestamp, frame_complete f))) = [(100, true), (200, false)] := by
  decide

theorem decodeScan_none (now : Int) (cb : List coded_data → pbuf_stats → Int)
    (st : pbuf_stats) :
    ∀ l : List pbuf_node, (∀ f ∈ l, ¬ decodable now f) →
      decodeScan now cb st l = (0, l.map (markExpired now)) := by
  intro l
  induction l with
  | nil => intro _; rfl
  | cons f rest ih =>
    intro h
    have hf : ¬ decodable now f := h f (List.mem_cons_self f rest)
    have hrest := ih (fun g hg => h g (List.mem_cons_of_mem f hg))
    by_cases h1 : f.decoded = false ∧ now > f.playout_time
    · have hc : frame_complete f = false := by
        cases hcc : frame_complete f with
        | false => rfl
        | true => exact absurd ⟨h1.1, h1.2, hcc⟩ hf
      simp only [decodeScan, if_pos h1, hc, Bool.false_eq_true, if_neg, ite_false, hrest]
      by_cases h2 : now > f.playout_time + 1000000 <;>
        simp [markExpired, h1.1, h1.2, hc, h2]
    · simp only [decodeScan, if_neg h1, hrest]
      have : ¬ (f.decoded = false ∧ now > f.playout_time ∧ frame_complete f = false ∧
          now > f.playout_time + 1000000) := by
        intro hx; exact h1 ⟨hx.1, hx.2.1⟩
      simp [markExpired, this]

theorem decodeScan_found (now : Int) (cb : List coded_data → pbuf_stats → Int)
    (st : pbuf_stats) :
    ∀ (pre : List pbuf_node) (fr : pbuf_node) (post : List pbuf_node),
      (∀ f ∈ pre, ¬ decodable now f) → decodable now fr →
      decodeScan now cb st (pre ++ fr :: post) =
        (cb fr.cdata st, pre.map (markExpired now) ++ ({ fr with decoded := true } :: post)) := by
  intro pre
  induction pre with
  | nil =>
    intro fr post _ hfr
    simp only [List.nil_append, List.map_nil]
    simp [decodeScan, hfr.1, hfr.2.1, hfr.2.2]
  | cons g pre' ih =>
    intro fr post h hfr
    have hg : ¬ decodable now g := h g (List.mem_cons_self g pre')
    have hrec := ih fr post (fun x hx => h x (List.mem_cons_of_mem g hx)) hfr
    by_cases h1 : g.decoded = false ∧ now > g.playout_time
    · have hc : frame_complete g = false := by
        cases hcc : frame_complete g with
        | false => rfl
        | true => exact absurd ⟨h1.1, h1.2, hcc⟩ hg
      simp only [List.cons_append, decodeScan, if_pos h1, hc, Bool.false_eq_true,
        ite_false, hrec, List.map_cons]
      by_cases h2 : now > g.playout_time + 1000000 <;>
        simp [markExpired, h1.1, h1.2, hc, h2, hrec]
    · simp only [List.cons_append, decodeScan, if_neg h1, hrec, List.map_cons]
      have : ¬ (g.decoded = false ∧ now > g.playout_time ∧ frame_complete g = false ∧
          now > g.playout_time + 1000000) := by
        intro hx; exact h1 ⟨hx.1, hx.2.1⟩
      simp [markExpired, this, hrec]

/-- C2: the Decode(now, callback) scan runs head to tail.  If no frame is
undecoded, due and complete, the result is 0 and the only mutation is
marking undecoded, due, incomplete frames past the one-second grace period
as completed — never a decoded flag.  Otherwise, splitting the frame list
around the first undecoded, due, complete frame, the callback is invoked
exactly once, on that frame's packet list with the cumulative-counter
snapshot; its result is returned, the frame's decoded flag is set, frames
before it only receive the grace-period completion marking, and frames
after it are untouched. -/
theorem pbuf_decode_first_due_complete_spec (now : Int)
    (cb : List coded_data → pbuf_stats → Int) (buf : pbuf) :
    ((∀ f ∈ buf.frames, ¬ decodable now f) →
      (pbuf_decode buf now cb).1 = 0 ∧
      (pbuf_decode buf now cb).2.frames = buf.frames.map (markExpired now)) ∧
    (∀ (pre : List pbuf_node) (fr : pbuf_node) (post : List pbuf_node),
      buf.frames = pre ++ fr :: post →
      (∀ f ∈ pre, ¬ decodable now f) → decodable now fr →
      (pbuf_decode buf now cb).1 =
        cb fr.cdata ⟨buf.received_pkts_cum, buf.expected_pkts_cum⟩ ∧
      (pbuf_decode buf now cb).2.frames =
        pre.map (markExpired now) ++ ({ fr with decoded := true } :: post)) ∧
    (∀ f : pbuf_node, (markExpired now f).decoded = f.decoded) := by
  refine ⟨?_, ?_, ?_⟩
  · intro h
    have := decodeScan_none now cb
      ⟨buf.received_pkts_cum, buf.expected_pkts_cum⟩ buf.frames h
    constructor
    · show (decodeScan now cb _ buf.frames).1 = 0
      rw [this]
    · show (decodeScan now cb _ buf.frames).2 = _
      rw [this]
  · intro pre fr post hsplit hpre hfr
    have := decodeScan_found now cb
      ⟨buf.received_pkts_cum, buf.expected_pkts_cum⟩ pre fr post hpre hfr
    constructor
    · show (decodeScan now cb _ buf.frames).1 = _
      rw [hsplit, this]
    · show (decodeScan now cb _ buf.frames).2 = _
      rw [hsplit, this]
  · intro f
    unfold markExpired
    split <;> rfl

/-- Witness for C2 at a concrete input: an incomplete overdue frame
followed by a complete due frame; the callback fires on the second frame
and returns 7, while the first frame is only marked completed. -/
theorem pbuf_decode_first_due_complete_spec_witness :
    (bufD.frames = [frameI] ++ frameC :: [] ∧
      (∀ f ∈ [frameI], ¬ decodable 2000001 f) ∧ decodable 2000001 frameC) ∧
    ((pbuf_decode bufD 2000001 cbW).1 =
        cbW frameC.cdata ⟨bufD.received_pkts_cum, bufD.expected_pkts_cum⟩ ∧
      (pbuf_decode bufD 2000001 cbW).2.frames =
        [frameI].map (markExpired 2000001) ++ ({ frameC with decoded := true } :: [])) :=
  ⟨⟨rfl, by decide, by decide⟩,
    (pbuf_decode_first_due_complete_spec 2000001 cbW bufD).2.1 [frameI] frameC []
      rfl (by decide) (by decide)⟩

theorem popAux_le : ∀ (fuel w : Nat), popAux fuel w ≤ fuel := by
  intro fuel
  induction fuel with
  | zero => intro w; simp [popAux]
  | succ n ih =>
    intro w
    unfold popAux
    split
    · omega
    · have h1 : w % 2 ≤ 1 := by omega
      have := ih (w / 2)
      omega

theorem popcount64_le (w : Nat) : popcount64 w ≤ 64 := popAux_le 64 w

theorem flushLoop_le : ∀ (k : Nat) (b : pbuf) (i : Nat),
    b.received_pkts ≤ b.expected_pkts →
    (flushLoop b i k).received_pkts ≤ (flushLoop b i k).expected_pkts := by
  intro k
  induction k with
  | zero => intro b i h; exact h
  | succ n ih =>
    intro b i h
    have hpc := popcount64_le (b.packets.getD (i % 65536 / 64) 0)
    refine ih _ ((i + 64) % 65536) ?_
    simp only []
    omega

theorem flushLoop_received_mono : ∀ (k : Nat) (b : pbuf) (i : Nat),
    b.received_pkts ≤ (flushLoop b i k).received_pkts ∧
    b.expected_pkts ≤ (flushLoop b i k).expected_pkts := by
  intro k
  induction k with
  | zero => intro b i; exact ⟨le_refl _, le_refl _⟩
  | succ n ih =>
    intro b i
    have := ih ({ b with
        expected_pkts := b.expected_pkts + 64
        received_pkts := b.received_pkts + popcount64 (b.packets.getD (i % 65536 / 64) 0)
        longest_gap := compute_longest_gap b.longest_gap (b.packets.getD (i % 65536 / 64) 0)
        packets := b.packets.set (i % 65536 / 64) 0 }) ((i + 64) % 65536)
    simp only [flushLoop]
    constructor
    · have h2 := this.1
      simp only [] at h2
      have hpc : (0 : Int) ≤ popcount64 (b.packets.getD (i % 65536 / 64) 0) := by positivity
      omega
    · have h2 := this.2
      simp only [] at h2
      omega

theorem flushLoop_cum_goal (B : pbuf) (i k : Nat)
    (hb : B.received_pkts ≤ B.expected_pkts)
    (hcd : B.received_pkts_cum ≤ B.expected_pkts_cum) :
    (flushLoop B i k).received_pkts_cum + (flushLoop B i k).received_pkts ≤
    (flushLoop B i k).expected_pkts_cum + (flushLoop B i k).expected_pkts := by
  have h1 := flushLoop_le k B i hb
  obtain ⟨-, -, -, -, -, -, h2a, h2b⟩ := flushLoop_preserves k B i
  omega

theorem statsPhase_counters (b : pbuf) (pkt : rtp_packet)
    (hre : b.received_pkts ≤ b.expected_pkts)
    (hcum : b.received_pkts_cum ≤ b.expected_pkts_cum) :
    (statsPhase b pkt).received_pkts ≤ (statsPhase b pkt).expected_pkts ∧
    (statsPhase b pkt).received_pkts_cum ≤ (statsPhase b pkt).expected_pkts_cum := by
  unfold statsPhase
  cases b.last_report_seq <;>
    simp only [] <;>
    split_ifs <;>
    refine ⟨?_, ?_⟩ <;>
    first
      | exact hre
      | exact hcum
      | exact flushLoop_le _ _ _ hre
      | exact flushLoop_cum_goal _ _ _ hre hcum

theorem reportPhase_counters (b : pbuf) (pkt : rtp_packet)
    (hre : b.received_pkts ≤ b.expected_pkts)
    (hcum : b.received_pkts_cum ≤ b.expected_pkts_cum) :
    (reportPhase b pkt).received_pkts ≤ (reportPhase b pkt).expected_pkts ∧
    (reportPhase b pkt).received_pkts_cum ≤ (reportPhase b pkt).expected_pkts_cum := by
  unfold reportPhase
  split <;> exact ⟨by simp_all, hcum⟩

theorem pbuf_insert_counters (b : pbuf) (pkt : rtp_packet) (now : Int)
    (off : Option Int)
    (hre : b.received_pkts ≤ b.expected_pkts)
    (hcum : b.received_pkts_cum ≤ b.expected_pkts_cum) :
    (pbuf_insert b pkt now off).received_pkts ≤ (pbuf_insert b pkt now off).expected_pkts ∧
    (pbuf_insert b pkt now off).received_pkts_cum ≤
      (pbuf_insert b pkt now off).expected_pkts_cum := by
  have h1 := statsPhase_counters b pkt hre hcum
  have h2 := reportPhase_counters (statsPhase b pkt) pkt h1.1 h1.2
  have h3 := framePhase_preserves (reportPhase (statsPhase b pkt) pkt) pkt now off
  unfold pbuf_insert
  refine ⟨?_, ?_⟩
  · rw [h3.1, h3.2.1]; exact h2.1
  · rw [h3.2.2.1, h3.2.2.2.1]; exact h2.2

/-- C5: for every sequence of Insert calls (arbitrary packets, arrival
times and external offsets), the cumulative statistics counters satisfy
received_pkts_cum ≤ expected_pkts_cum — quantifying over all call
sequences covers every intermediate state, including reordered and
duplicated arrivals within a report window. -/
theorem pbuf_insert_cum_received_le_expected
    (ops : List (rtp_packet × Int × Option Int)) :
    (ops.foldl (fun b o => pbuf_insert b o.1 o.2.1 o.2.2) pbuf_init).received_pkts_cum ≤
    (ops.foldl (fun b o => pbuf_insert b o.1 o.2.1 o.2.2) pbuf_init).expected_pkts_cum := by
  suffices h : ∀ (l : List (rtp_packet × Int × Option Int)) (b : pbuf),
      b.received_pkts ≤ b.expected_pkts →
      b.received_pkts_cum ≤ b.expected_pkts_cum →
      (l.foldl (fun b o => pbuf_insert b o.1 o.2.1 o.2.2) b).received_pkts ≤
        (l.foldl (fun b o => pbuf_insert b o.1 o.2.1 o.2.2) b).expected_pkts ∧
      (l.foldl (fun b o => pbuf_insert b o.1 o.2.1 o.2.2) b).received_pkts_cum ≤
        (l.foldl (fun b o => pbuf_insert b o.1 o.2.1 o.2.2) b).expected_pkts_cum by
    exact (h ops pbuf_init (le_refl 0) (le_refl 0)).2
  intro l
  induction l with
  | nil => intro b h1 h2; exact ⟨h1, h2⟩
  | cons o rest ih =>
    intro b h1 h2
    have := pbuf_insert_counters b o.1 o.2.1 o.2.2 h1 h2
    exact ih _ this.1 this.2

theorem insertSeqs_append (b : pbuf) (xs ys : List Nat) :
    insertSeqs b (xs ++ ys) = insertSeqs (insertSeqs b xs) ys := by
  unfold insertSeqs
  exact List.foldl_append _ _ xs ys

set_option maxRecDepth 40000 in
theorem scenarioD_ck1 : insertSeqs pbuf_init (scenarioD.take 44) = ckD1 := by decide

set_option maxRecDepth 40000 in
theorem scenarioD_ck2 : insertSeqs ckD1 ((scenarioD.drop 44).take 43) = ckD2 := by
  decide

set_option maxRecDepth 40000 in
theorem scenarioD_ck3 : insertSeqs ckD2 (scenarioD.drop 87) = ckD3 := by decide

theorem scenarioD_state : insertSeqs pbuf_init scenarioD = ckD3 := by
  have hsplit : scenarioD = scenarioD.take 44 ++ ((scenarioD.drop 44).take 43 ++ scenarioD.drop 87) := by
    decide
  rw [hsplit, insertSeqs_append, insertSeqs_append, scenarioD_ck1, scenarioD_ck2,
    scenarioD_ck3]

set_option maxRecDepth 40000 in
/-- Counterexample for C7 as stated: inserting the 130 consecutive
sequence numbers 0..129 with seq 50 missing triggers no statistics flush
at all (the wraparound distance never reaches two report intervals), so
the per-window counters stay 0/0 — they never show received = 129 and
expected = 130; expected counts only ever advance in multiples of the
64-bit word width. -/
theorem pbuf_insert_gap_window_cex :
    (insertSeqs pbuf_init scenarioD).received_pkts = 0 ∧
    (insertSeqs pbuf_init scenarioD).expected_pkts = 0 ∧
    ¬ ((insertSeqs pbuf_init scenarioD).received_pkts = 129 ∧
       (insertSeqs pbuf_init scenarioD).expected_pkts = 130) := by
  rw [scenarioD_state]
  refine ⟨by decide, by decide, ?_⟩
  rw [show ckD3.received_pkts = 0 from by decide]
  intro h
  exact absurd h.1 (by decide)

set_option maxRecDepth 40000 in
/-- C7 (amended): inserting the 129 packets of Scenario D (sequence
numbers 0..129, seq 50 missing) triggers no flush by itself, leaving the
window counters at 0; the flush triggered by the next packet (seq 256)
covers the two fully elapsed 64-wide windows over seqs 0..127, after
which received = 127 and expected = 128 (multiples of the word width, not
129/130), and the longest-gap estimate is exactly 1, hence at least 1. -/
theorem pbuf_insert_gap_window_flush :
    (insertSeqs pbuf_init scenarioD).received_pkts = 0 ∧
    (insertSeqs pbuf_init scenarioD).expected_pkts = 0 ∧
    (pbuf_insert (insertSeqs pbuf_init scenarioD) (mkPkt 100 256) 0 none).received_pkts = 127 ∧
    (pbuf_insert (insertSeqs pbuf_init scenarioD) (mkPkt 100 256) 0 none).expected_pkts = 128 ∧
    (pbuf_insert (insertSeqs pbuf_init scenarioD) (mkPkt 100 256) 0 none).longest_gap = 1 ∧
    1 ≤ (pbuf_insert (insertSeqs pbuf_init scenarioD) (mkPkt 100 256) 0 none).longest_gap := by
  rw [scenarioD_state]
  refine ⟨by decide, by decide, by decide, by decide, by decide, ?_⟩
  rw [show (pbuf_insert ckD3 (mkPkt 100 256) 0 none).longest_gap = 1 from by decide]

theorem reportPhase_nofire (b : pbuf) (pkt : rtp_packet)
    (h : ¬ (u32sub pkt.ts b.last_display_ts > 450000 ∧ b.expected_pkts > 0)) :
    reportPhase b pkt = b := by
  unfold reportPhase
  rw [if_neg h]

theorem flushLoop_expected_exact : ∀ (k : Nat) (b : pbuf) (i : Nat),
    (flushLoop b i k).expected_pkts = b.expected_pkts + 64 * k ∧
    (flushLoop b i k).received_pkts ≤ b.received_pkts + 64 * k := by
  intro k
  induction k with
  | zero => intro b i; exact ⟨by simp [flushLoop], by simp [flushLoop]⟩
  | succ n ih =>
    intro b i
    obtain ⟨h1, h2⟩ := ih ({ b with
        expected_pkts := b.expected_pkts + 64
        received_pkts := b.received_pkts + popcount64 (b.packets.getD (i % 65536 / 64) 0)
        longest_gap := compute_longest_gap b.longest_gap (b.packets.getD (i % 65536 / 64) 0)
        packets := b.packets.set (i % 65536 / 64) 0 }) ((i + 64) % 65536)
    have hpc := popcount64_le (b.packets.getD (i % 65536 / 64) 0)
    simp only [flushLoop]
    constructor
    · simp only [] at h1
      omega
    · simp only [] at h2
      omega

theorem statsPhase_flush_window_count (b : pbuf) (pkt : rtp_packet) (c : Nat)
    (hc : b.last_report_seq = some c)
    (hd : 256 ≤ u16sub (pkt.seq % 65536) c) :
    (statsPhase b pkt).expected_pkts =
      b.expected_pkts +
        64 * (u16sub ((pkt.seq % 65536 / 128 * 128 + 65536 - 128) % 65536) c / 64) ∧
    (statsPhase b pkt).received_pkts ≤
      b.received_pkts +
        64 * (u16sub ((pkt.seq % 65536 / 128 * 128 + 65536 - 128) % 65536) c / 64) := by
  unfold statsPhase
  rw [hc]
  simp only []
  rw [hc]
  simp only [Option.getD_some]
  split_ifs <;>
    refine ⟨?_, ?_⟩ <;>
    first
      | omega
      | exact (flushLoop_expected_exact _ _ _).1
      | exact (flushLoop_expected_exact _ _ _).2

set_option maxRecDepth 40000 in
/-- C6: inserting the consecutive sequence numbers 65534, 65535, 0, 1
across the 16-bit boundary leaves the window counters at zero — it is not
treated as a ~65000-packet loss burst; in general a flush-triggering
Insert (wraparound distance from the cursor at least two report
intervals, no report firing) advances the expected count by exactly 64
times the wraparound window count between the cursor and
report_seq_until, and the received count by at most that; and for the
boundary scenario's cursor 65408 the next trigger (seq 128) has
wraparound distance exactly 256 and flushes exactly two windows worth,
128 packets — not ~65000. -/
theorem pbuf_insert_wraparound_no_burst :
    ((insertSeqs pbuf_init [65534, 65535, 0, 1]).received_pkts = 0 ∧
     (insertSeqs pbuf_init [65534, 65535, 0, 1]).expected_pkts = 0) ∧
    (∀ (b : pbuf) (pkt : rtp_packet) (now : Int) (off : Option Int) (c : Nat),
      b.last_report_seq = some c →
      256 ≤ u16sub (pkt.seq % 65536) c →
      u32sub pkt.ts b.last_display_ts ≤ 450000 →
      (pbuf_insert b pkt now off).expected_pkts =
        b.expected_pkts +
          64 * (u16sub ((pkt.seq % 65536 / 128 * 128 + 65536 - 128) % 65536) c / 64) ∧
      (pbuf_insert b pkt now off).received_pkts ≤
        b.received_pkts +
          64 * (u16sub ((pkt.seq % 65536 / 128 * 128 + 65536 - 128) % 65536) c / 64)) ∧
    (u16sub ((mkPkt 100 128).seq % 65536) 65408 = 256 ∧
     64 * (u16sub (((mkPkt 100 128).seq % 65536 / 128 * 128 + 65536 - 128) % 65536) 65408 / 64) =
       128) := by
  refine ⟨⟨by decide, by decide⟩, ?_, by decide, by decide⟩
  intro b pkt now off c hc hd hts
  have hs := statsPhase_flush_window_count b pkt c hc hd
  have hps := statsPhase_preserves b pkt
  have hrep : reportPhase (statsPhase b pkt) pkt = statsPhase b pkt := by
    refine reportPhase_nofire _ _ ?_
    rw [hps.2.2]
    intro hx
    omega
  have hfp := framePhase_preserves (statsPhase b pkt) pkt now off
  unfold pbuf_insert
  rw [hrep]
  rw [hfp.1, hfp.2.1]
  exact hs

set_option maxRecDepth 40000 in
/-- Witness for C6's general conjunct at a concrete input: a buffer whose
report cursor sits at 65408 (just before the 16-bit boundary) receives
seq 128; expected advances by exactly two windows (128), received by at
most that. -/
theorem pbuf_insert_wraparound_no_burst_witness :
    (({ pbuf_init with last_report_seq := some 65408 } : pbuf).last_report_seq = some 65408 ∧
      256 ≤ u16sub ((mkPkt 100 128).seq % 65536) 65408 ∧
      u32sub (mkPkt 100 128).ts
        ({ pbuf_init with last_report_seq := some 65408 } : pbuf).last_display_ts ≤ 450000) ∧
    ((pbuf_insert { pbuf_init with last_report_seq := some 65408 } (mkPkt 100 128) 0 none).expected_pkts =
        ({ pbuf_init with last_report_seq := some 65408 } : pbuf).expected_pkts +
          64 * (u16sub (((mkPkt 100 128).seq % 65536 / 128 * 128 + 65536 - 128) % 65536) 65408 / 64) ∧
      (pbuf_insert { pbuf_init with last_report_seq := some 65408 } (mkPkt 100 128) 0 none).received_pkts ≤
        ({ pbuf_init with last_report_seq := some 65408 } : pbuf).received_pkts +
          64 * (u16sub (((mkPkt 100 128).seq % 65536 / 128 * 128 + 65536 - 128) % 65536) 65408 / 64)) :=
  ⟨⟨rfl, by decide, by decide⟩,
    pbuf_insert_wraparound_no_burst.2.1 { pbuf_init with last_report_seq := some 65408 }
      (mkPkt 100 128) 0 none 65408 rfl (by decide) (by decide)⟩

theorem flushLoop_cum_mono_goal (B : pbuf) (i k : Nat)
    (hr : 0 ≤ B.received_pkts) (he : 0 ≤ B.expected_pkts) :
    B.received_pkts_cum ≤ (flushLoop B i k).received_pkts_cum + (flushLoop B i k).received_pkts ∧
    B.expected_pkts_cum ≤ (flushLoop B i k).expected_pkts_cum + (flushLoop B i k).expected_pkts := by
  obtain ⟨h1, h2⟩ := flushLoop_received_mono k B i
  obtain ⟨-, -, -, -, -, -, h3, h4⟩ := flushLoop_preserves k B i
  omega

theorem statsPhase_cum_mono (b : pbuf) (pkt : rtp_packet)
    (hr : 0 ≤ b.received_pkts) (he : 0 ≤ b.expected_pkts) :
    b.received_pkts_cum ≤ (statsPhase b pkt).received_pkts_cum ∧
    b.expected_pkts_cum ≤ (statsPhase b pkt).expected_pkts_cum := by
  unfold statsPhase
  cases b.last_report_seq <;>
    simp only [] <;>
    split_ifs <;>
    refine ⟨?_, ?_⟩ <;>
    first
      | exact le_refl _
      | exact (flushLoop_cum_mono_goal _ _ _ (by exact hr) (by exact he)).1
      | exact (flushLoop_cum_mono_goal _ _ _ (by exact hr) (by exact he)).2

theorem statsPhase_received_nonneg (b : pbuf) (pkt : rtp_packet)
    (hr : 0 ≤ b.received_pkts) (he : 0 ≤ b.expected_pkts) :
    0 ≤ (statsPhase b pkt).received_pkts ∧ 0 ≤ (statsPhase b pkt).expected_pkts := by
  unfold statsPhase
  cases b.last_report_seq <;>
    simp only [] <;>
    split_ifs <;>
    refine ⟨?_, ?_⟩ <;>
    first
      | exact hr
      | exact he
      | exact le_trans (by exact hr) (flushLoop_received_mono _ _ _).1
      | exact le_trans (by exact he) (flushLoop_received_mono _ _ _).2

theorem flush_acc_received (B : pbuf) (i k : Nat) :
    (flushLoop B i k).received_pkts_cum + (flushLoop B i k).received_pkts =
      B.received_pkts_cum + (flushLoop B i k).received_pkts := by
  rw [(flushLoop_preserves k B i).2.2.2.2.2.2.1]

theorem flush_acc_expected (B : pbuf) (i k : Nat) :
    (flushLoop B i k).expected_pkts_cum + (flushLoop B i k).expected_pkts =
      B.expected_pkts_cum + (flushLoop B i k).expected_pkts := by
  rw [(flushLoop_preserves k B i).2.2.2.2.2.2.2]

theorem statsPhase_flush_acc (b : pbuf) (pkt : rtp_packet) (c : Nat)
    (hc : b.last_report_seq = some c)
    (hd : 256 ≤ u16sub (pkt.seq % 65536) c) :
    (statsPhase b pkt).received_pkts_cum =
      b.received_pkts_cum + (statsPhase b pkt).received_pkts ∧
    (statsPhase b pkt).expected_pkts_cum =
      b.expected_pkts_cum + (statsPhase b pkt).expected_pkts ∧
    b.received_pkts ≤ (statsPhase b pkt).received_pkts ∧
    b.expected_pkts ≤ (statsPhase b pkt).expected_pkts ∧
    (statsPhase b pkt).last_display_ts = b.last_display_ts := by
  unfold statsPhase
  rw [hc]
  simp only []
  rw [hc]
  simp only [Option.getD_some]
  split_ifs <;>
    refine ⟨?_, ?_, ?_, ?_, ?_⟩ <;>
    first
      | omega
      | exact flush_acc_received _ _ _
      | exact flush_acc_expected _ _ _
      | exact (flushLoop_received_mono _ _ _).1
      | exact (flushLoop_received_mono _ _ _).2
      | exact (flushLoop_preserves _ _ _).2.2.2.1

set_option maxRecDepth 40000 in
/-- C10: on a flush-triggering Insert the cumulative counters grow by the
full current window counters, which a flush never zeroes (only the
five-second report does); so a window flushed earlier contributes again at
every later flush of the same report period, and the cumulative counters
are monotone non-decreasing.  Concretely, inserting seqs 0, 256, 512
flushes twice: the first flush adds 1 received, the second adds the full
counter 2 (counting seq 0 again), leaving received_pkts_cum = 3 and
expected_pkts_cum = 128 + 384 = 512. -/
theorem pbuf_insert_cum_flush_accumulation :
    ((insertSeqs pbuf_init [0, 256, 512]).received_pkts_cum = 3 ∧
     (insertSeqs pbuf_init [0, 256, 512]).expected_pkts_cum = 512 ∧
     (insertSeqs pbuf_init [0, 256, 512]).received_pkts = 2 ∧
     (insertSeqs pbuf_init [0, 256, 512]).expected_pkts = 384) ∧
    (∀ (b : pbuf) (pkt : rtp_packet) (now : Int) (off : Option Int) (c : Nat),
      b.last_report_seq = some c →
      256 ≤ u16sub (pkt.seq % 65536) c →
      u32sub pkt.ts b.last_display_ts ≤ 450000 →
      (pbuf_insert b pkt now off).received_pkts_cum =
        b.received_pkts_cum + (pbuf_insert b pkt now off).received_pkts ∧
      (pbuf_insert b pkt now off).expected_pkts_cum =
        b.expected_pkts_cum + (pbuf_insert b pkt now off).expected_pkts ∧
      b.received_pkts ≤ (pbuf_insert b pkt now off).received_pkts ∧
      b.expected_pkts ≤ (pbuf_insert b pkt now off).expected_pkts) ∧
    (∀ (b : pbuf) (pkt : rtp_packet) (now : Int) (off : Option Int),
      0 ≤ b.received_pkts → 0 ≤ b.expected_pkts →
      b.received_pkts_cum ≤ (pbuf_insert b pkt now off).received_pkts_cum ∧
      b.expected_pkts_cum ≤ (pbuf_insert b pkt now off).expected_pkts_cum) := by
  refine ⟨⟨by decide, by decide, by decide, by decide⟩, ?_, ?_⟩
  · intro b pkt now off c hc hd hts
    have hs := statsPhase_flush_acc b pkt c hc hd
    have hrep : reportPhase (statsPhase b pkt) pkt = statsPhase b pkt := by
      refine reportPhase_nofire _ _ ?_
      rw [hs.2.2.2.2]
      intro hx
      omega
    have hfp := framePhase_preserves (statsPhase b pkt) pkt now off
    unfold pbuf_insert
    rw [hrep]
    rw [hfp.1, hfp.2.1, hfp.2.2.1, hfp.2.2.2.1]
    exact ⟨hs.1, hs.2.1, hs.2.2.1, hs.2.2.2.1⟩
  · intro b pkt now off hr he
    have h1 := statsPhase_cum_mono b pkt hr he
    have h2 := reportPhase_preserves (statsPhase b pkt) pkt
    have hfp := framePhase_preserves (reportPhase (statsPhase b pkt) pkt) pkt now off
    unfold pbuf_insert
    rw [hfp.2.2.1, hfp.2.2.2.1, h2.2.2.1, h2.2.2.2.1]
    exact h1

set_option maxRecDepth 40000 in
/-- Witness for C10 at concrete inputs: a flush-triggering insert into the
Scenario D state, and monotonicity from the initial buffer. -/
theorem pbuf_insert_cum_flush_accumulation_witness :
    (ckD3.last_report_seq = some 0 ∧
      256 ≤ u16sub ((mkPkt 100 256).seq % 65536) 0 ∧
      u32sub (mkPkt 100 256).ts ckD3.last_display_ts ≤ 450000) ∧
    ((pbuf_insert ckD3 (mkPkt 100 256) 0 none).received_pkts_cum =
        ckD3.received_pkts_cum + (pbuf_insert ckD3 (mkPkt 100 256) 0 none).received_pkts ∧
      (pbuf_insert ckD3 (mkPkt 100 256) 0 none).expected_pkts_cum =
        ckD3.expected_pkts_cum + (pbuf_insert ckD3 (mkPkt 100 256) 0 none).expected_pkts ∧
      ckD3.received_pkts ≤ (pbuf_insert ckD3 (mkPkt 100 256) 0 none).received_pkts ∧
      ckD3.expected_pkts ≤ (pbuf_insert ckD3 (mkPkt 100 256) 0 none).expected_pkts) ∧
    (pbuf_init.received_pkts_cum ≤
        (pbuf_insert pbuf_init (mkPkt 100 0) 0 none).received_pkts_cum ∧
      pbuf_init.expected_pkts_cum ≤
        (pbuf_insert pbuf_init (mkPkt 100 0) 0 none).expected_pkts_cum) :=
  ⟨⟨by decide, by decide, by decide⟩,
    pbuf_insert_cum_flush_accumulation.2.1 ckD3 (mkPkt 100 256) 0 none 0
      (by decide) (by decide) (by decide),
    pbuf_insert_cum_flush_accumulation.2.2 pbuf_init (mkPkt 100 0) 0 none
      (le_refl 0) (le_refl 0)⟩

theorem add_coded_unit_playout (node : pbuf_node) (pkt : rtp_packet) :
    (add_coded_unit node pkt).playout_time = node.playout_time := by
  unfold add_coded_unit
  cases node.cdata <;> simp only [] <;> split <;> rfl

theorem addPrevRev_playout_map (pkt : rtp_packet) :
    ∀ (l r : List pbuf_node), addPrevRev pkt l = some r →
      r.map (fun f => f.playout_time) = l.map (fun f => f.playout_time) := by
  intro l
  induction l with
  | nil => intro r h; simp [addPrevRev] at h
  | cons c rest ih =>
    intro r h
    cases rest with
    | nil =>
      simp only [addPrevRev] at h
      split at h
      · cases h
        simp [add_coded_unit_playout]
      · cases h
    | cons d rest' =>
      simp only [addPrevRev] at h
      split at h
      · cases hrec : addPrevRev pkt (d :: rest') with
        | none => rw [hrec] at h; cases h
        | some r' =>
          rw [hrec] at h
          cases h
          simp only [List.map_cons]
          rw [ih r' hrec]
          rfl
      · split at h
        · cases h
          simp [add_coded_unit_playout]
        · cases h

theorem framePhase_playout_map (b : pbuf) (pkt : rtp_packet) (now : Int)
    (off : Option Int) :
    (framePhase b pkt now off).frames.map (fun f => f.playout_time) =
        b.frames.map (fun f => f.playout_time) ∨
    (framePhase b pkt now off).frames.map (fun f => f.playout_time) =
        b.frames.map (fun f => f.playout_time) ++
          [now + (b.playout_delay_us + 1000 * off.getD 0)] := by
  unfold framePhase
  cases hl : b.frames.getLast? with
  | none =>
    right
    rw [List.getLast?_eq_none_iff.1 hl]
    simp [create_new_pnode]
  | some last =>
    obtain ⟨front, hfr⟩ := List.getLast?_eq_some_iff.1 hl
    simp only []
    split
    · left
      rw [hfr, List.dropLast_concat]
      simp [add_coded_unit_playout]
    · split
      · right
        rw [hfr, List.dropLast_concat]
        simp [create_new_pnode]
      · cases b.frames.head? with
        | none => left; rfl
        | some frst =>
          simp only []
          split
          · left; rfl
          · cases hpr : addPrevRev pkt b.frames.reverse with
            | none => left; rfl
            | some r =>
              left
              simp only []
              have := addPrevRev_playout_map pkt b.frames.reverse r hpr
              rw [List.map_reverse, this, List.map_reverse, List.reverse_reverse]

/-- C9 (amended): pbuf_set_playout_delay takes its argument in seconds —
the code stores playout_delay * 1000 * 1000 microseconds — and affects
only frames created after the call: the call itself leaves every existing
frame (hence its playout time) untouched, later Inserts never change an
existing frame's playout time (the playout-time list is preserved, at most
extended by the new tail's entry), and a frame created after the call gets
playout time = arrival time + 1000000·d + 1000·offset_ms microseconds,
with the external live offset read at creation. -/
theorem pbuf_set_playout_delay_future_frames :
    (∀ (b : pbuf) (d : Int),
      (pbuf_set_playout_delay b d).frames = b.frames ∧
      (pbuf_set_playout_delay b d).playout_delay_us = d * 1000000) ∧
    (∀ (b : pbuf) (d : Int) (pkt : rtp_packet) (now : Int) (off : Option Int),
      b.frames = [] →
      (pbuf_insert (pbuf_set_playout_delay b d) pkt now off).frames =
        [create_new_pnode pkt (d * 1000000 + 1000 * off.getD 0) now] ∧
      (create_new_pnode pkt (d * 1000000 + 1000 * off.getD 0) now).arrival_time = now ∧
      (create_new_pnode pkt (d * 1000000 + 1000 * off.getD 0) now).playout_time =
        now + (d * 1000000 + 1000 * off.getD 0)) ∧
    (∀ (b : pbuf) (pkt : rtp_packet) (now : Int) (off : Option Int),
      (pbuf_insert b pkt now off).frames.map (fun f => f.playout_time) =
          b.frames.map (fun f => f.playout_time) ∨
      (pbuf_insert b pkt now off).frames.map (fun f => f.playout_time) =
          b.frames.map (fun f => f.playout_time) ++
            [now + (b.playout_delay_us + 1000 * off.getD 0)]) := by
  refine ⟨fun b d => ⟨rfl, rfl⟩, ?_, ?_⟩
  · intro b d pkt now off hemp
    have h1 := statsPhase_preserves (pbuf_set_playout_delay b d) pkt
    have h2 := reportPhase_preserves (statsPhase (pbuf_set_playout_delay b d) pkt) pkt
    refine ⟨?_, rfl, rfl⟩
    unfold pbuf_insert framePhase
    rw [h2.1, h1.1]
    rw [show (pbuf_set_playout_delay b d).frames = b.frames from rfl, hemp]
    simp only [List.getLast?_nil]
    rw [h2.2.1, h1.2.1]
    rfl
  · intro b pkt now off
    have h1 := statsPhase_preserves b pkt
    have h2 := reportPhase_preserves (statsPhase b pkt) pkt
    have h3 := framePhase_playout_map (reportPhase (statsPhase b pkt) pkt) pkt now off
    unfold pbuf_insert
    rw [h2.1, h1.1, h2.2.1, h1.2.1] at h3
    exact h3

/-- Witness for C9 at a concrete input: set a 2-second delay, insert into
the empty buffer at time 5. -/
theorem pbuf_set_playout_delay_future_frames_witness :
    pbuf_init.frames = [] ∧
    ((pbuf_insert (pbuf_set_playout_delay pbuf_init 2) (mkPkt 100 1) 5 none).frames =
        [create_new_pnode (mkPkt 100 1) (2 * 1000000 + 1000 * (none : Option Int).getD 0) 5] ∧
      (create_new_pnode (mkPkt 100 1) (2 * 1000000 + 1000 * (none : Option Int).getD 0) 5).arrival_time = 5 ∧
      (create_new_pnode (mkPkt 100 1) (2 * 1000000 + 1000 * (none : Option Int).getD 0) 5).playout_time =
        5 + (2 * 1000000 + 1000 * (none : Option Int).getD 0)) :=
  ⟨rfl, pbuf_set_playout_delay_future_frames.2.1 pbuf_init 2 (mkPkt 100 1) 5 none rfl⟩

/-- Counterexample for C9 as stated: after SetPlayoutDelay(1) a frame
created by an Insert at time 0 gets playout time 1000000 µs, not the
claimed arrival time + 1 µs — the parameter is in seconds, not
microseconds. -/
theorem pbuf_set_playout_delay_units_cex :
    (pbuf_insert (pbuf_set_playout_delay pbuf_init 1) (mkPkt 100 1) 0 none).frames.map
      (fun f => (f.arrival_time, f.playout_time)) = [(0, 1000000)] ∧
    (1000000 : Int) ≠ 0 + 1 :=
  ⟨by decide, by decide⟩

theorem seqI16_pos_asymm (a b : Nat) (h : seqI16 a b > 0) : seqI16 b a < 0 := by
  unfold seqI16 toI16 u16sub at h ⊢
  split at h <;> split <;> omega

theorem insertScan_head (pkt : rtp_packet) (l : List coded_data) :
    (insertScan pkt l).head? = l.head? ∨
    (insertScan pkt l).head? = some ⟨pkt.seq, pkt⟩ := by
  cases l with
  | nil => right; rfl
  | cons c rest =>
    unfold insertScan
    split
    · left; rfl
    · split
      · right; rfl
      · left; rfl

theorem insertScan_chain (pkt : rtp_packet) :
    ∀ l : List coded_data, cdataDescending l → cdataDescending (insertScan pkt l) := by
  intro l
  induction l with
  | nil => intro _; simp [insertScan, cdataDescending]
  | cons c rest ih =>
    intro h
    rw [cdataDescending, List.chain'_cons'] at h
    unfold insertScan
    split
    · rename_i hlt
      rw [cdataDescending, List.chain'_cons']
      refine ⟨?_, ih h.2⟩
      intro y hy
      rcases insertScan_head pkt rest with hh | hh
      · rw [hh] at hy
        exact h.1 y hy
      · rw [hh] at hy
        simp only [Option.mem_def, Option.some.injEq] at hy
        subst hy
        exact hlt
    · split
      · rename_i hgt
        rw [cdataDescending, List.chain'_cons']
        refine ⟨?_, List.chain'_cons'.2 h⟩
        intro y hy
        simp only [List.head?_cons, Option.mem_def, Option.some.injEq] at hy
        subst hy
        exact seqI16_pos_asymm _ _ hgt
      · exact List.chain'_cons'.2 h

theorem add_coded_unit_chain (node : pbuf_node) (pkt : rtp_packet)
    (h : cdataDescending node.cdata) :
    cdataDescending (add_coded_unit node pkt).cdata := by
  unfold add_coded_unit
  cases hc : node.cdata with
  | nil => simp [cdataDescending]
  | cons c rest =>
    rw [hc] at h
    simp only []
    split
    · rename_i hgt
      rw [cdataDescending, List.chain'_cons']
      refine ⟨?_, h⟩
      intro y hy
      simp only [List.head?_cons, Option.mem_def, Option.some.injEq] at hy
      subst hy
      exact seqI16_pos_asymm _ _ hgt
    · exact insertScan_chain pkt (c :: rest) h

theorem insertScan_dup (pkt : rtp_packet) :
    ∀ (l1 : List coded_data) (c : coded_data) (l2 : List coded_data),
      (∀ d ∈ l1, seqI16 pkt.seq d.seqno < 0) → seqI16 pkt.seq c.seqno = 0 →
      insertScan pkt (l1 ++ c :: l2) = l1 ++ c :: l2 := by
  intro l1
  induction l1 with
  | nil =>
    intro c l2 _ heq
    simp only [List.nil_append]
    unfold insertScan
    rw [if_neg (by omega), if_neg (by omega)]
  | cons d l1' ih =>
    intro c l2 hpre heq
    simp only [List.cons_append]
    unfold insertScan
    rw [if_pos (hpre d (List.mem_cons_self d l1'))]
    rw [ih c l2 (fun x hx => hpre x (List.mem_cons_of_mem d hx)) heq]

theorem add_coded_unit_dup (node : pbuf_node) (pkt : rtp_packet)
    (l1 : List coded_data) (c : coded_data) (l2 : List coded_data)
    (hsplit : node.cdata = l1 ++ c :: l2)
    (hpre : ∀ d ∈ l1, seqI16 pkt.seq d.seqno < 0)
    (heq : seqI16 pkt.seq c.seqno = 0) :
    (add_coded_unit node pkt).cdata = node.cdata := by
  unfold add_coded_unit
  cases l1 with
  | nil =>
    simp only [List.nil_append] at hsplit
    rw [hsplit]
    simp only []
    rw [if_neg (by omega)]
    have := insertScan_dup pkt [] c l2 (by simp) heq
    simpa using this
  | cons d l1' =>
    simp only [List.cons_append] at hsplit
    rw [hsplit]
    simp only []
    rw [if_neg (by have := hpre d (List.mem_cons_self d l1'); omega)]
    have := insertScan_dup pkt (d :: l1') c l2 hpre heq
    simpa using this

theorem statsPhase_dup_flag (b : pbuf) (pkt : rtp_packet) (c : Nat)
    (hc : b.last_report_seq = some c)
    (hbit : b.packets.getD (pkt.seq % 65536 / 64) 0 &&& (1 <<< (pkt.seq % 65536 % 64)) ≠ 0) :
    (statsPhase b pkt).dups = true ∧
    (statsPhase b pkt).last_display_ts = b.last_display_ts := by
  unfold statsPhase
  rw [hc]
  simp only []
  rw [hc]
  simp only [Option.getD_some]
  split_ifs <;>
    refine ⟨?_, ?_⟩ <;>
    first
      | rfl
      | exact absurd hbit (by assumption)
      | exact (flushLoop_preserves _ _ _).2.2.2.2.1
      | exact (flushLoop_preserves _ _ _).2.2.2.1

/-- C4 (amended): within every frame the packet list stays strictly
descending under the signed 16-bit wraparound comparator (each adjacent
pair satisfies (int16_t)(next - prev) < 0, highest sequence nearest the
head); inserting a packet whose exact sequence number is already present
drops the new packet — leaving the frame's list, and in particular its
single packet for that sequence, unchanged — provided every packet stored
ahead of the matching one compares strictly greater than the new packet
under the comparator (always the case when the frame's sequences span
less than half the 16-bit epoch); and the duplicate-seen statistics flag
is set by an Insert whose sequence bit is already set in the statistics
bitmap (when no five-second report fires in the same call). -/
theorem add_coded_unit_order_dup_spec :
    (∀ (node : pbuf_node) (pkt : rtp_packet),
      cdataDescending node.cdata → cdataDescending (add_coded_unit node pkt).cdata) ∧
    (∀ (node : pbuf_node) (pkt : rtp_packet) (l1 : List coded_data)
        (c : coded_data) (l2 : List coded_data),
      node.cdata = l1 ++ c :: l2 →
      (∀ d ∈ l1, seqI16 pkt.seq d.seqno < 0) →
      seqI16 pkt.seq c.seqno = 0 →
      (add_coded_unit node pkt).cdata = node.cdata ∧
      ((node.cdata.map (fun x => x.seqno)).count c.seqno = 1 →
        ((add_coded_unit node pkt).cdata.map (fun x => x.seqno)).count c.seqno = 1)) ∧
    (∀ (b : pbuf) (pkt : rtp_packet) (now : Int) (off : Option Int) (c : Nat),
      b.last_report_seq = some c →
      b.packets.getD (pkt.seq % 65536 / 64) 0 &&& (1 <<< (pkt.seq % 65536 % 64)) ≠ 0 →
      u32sub pkt.ts b.last_display_ts ≤ 450000 →
      (pbuf_insert b pkt now off).dups = true) := by
  refine ⟨add_coded_unit_chain, ?_, ?_⟩
  · intro node pkt l1 c l2 hsplit hpre heq
    have hu := add_coded_unit_dup node pkt l1 c l2 hsplit hpre heq
    exact ⟨hu, fun h1 => by rw [hu]; exact h1⟩
  · intro b pkt now off c hc hbit hts
    have hs := statsPhase_dup_flag b pkt c hc hbit
    have hrep := reportPhase_nofire (statsPhase b pkt) pkt
      (by rw [hs.2]; intro hx; omega)
    have hfp := framePhase_preserves (statsPhase b pkt) pkt now off
    unfold pbuf_insert
    rw [hrep, hfp.2.2.2.2.1]
    exact hs.1

/-- Witness for C4 at concrete inputs: ordering is preserved when seq 2
joins a frame holding seq 1; re-inserting seq 1 leaves the frame
unchanged with its single seq-1 packet; and re-inserting seq 7 into a
fresh buffer sets the duplicate flag. -/
theorem add_coded_unit_order_dup_spec_witness :
    (cdataDescending frameI.cdata ∧
      cdataDescending (add_coded_unit frameI (mkPkt 100 2)).cdata) ∧
    ((add_coded_unit frameI (mkPkt 100 1)).cdata = frameI.cdata ∧
      ((add_coded_unit frameI (mkPkt 100 1)).cdata.map (fun x => x.seqno)).count 1 = 1) ∧
    (pbuf_insert (pbuf_insert pbuf_init (mkPkt 100 7) 0 none) (mkPkt 100 7) 0 none).dups = true :=
  ⟨⟨by simp [cdataDescending, frameI], add_coded_unit_order_dup_spec.1 frameI (mkPkt 100 2)
      (by simp [cdataDescending, frameI])⟩,
    ⟨(add_coded_unit_order_dup_spec.2.1 frameI (mkPkt 100 1) []
        ⟨1, mkPkt 100 1⟩ [] rfl (by simp) (by decide)).1,
      (add_coded_unit_order_dup_spec.2.1 frameI (mkPkt 100 1) []
        ⟨1, mkPkt 100 1⟩ [] rfl (by simp) (by decide)).2 (by decide)⟩,
    add_coded_unit_order_dup_spec.2.2 (pbuf_insert pbuf_init (mkPkt 100 7) 0 none)
      (mkPkt 100 7) 0 none 0 (by decide) (by decide) (by decide)⟩

/-- Counterexample for C4 as stated: build a frame whose packet sequence
numbers wrap all the way around the 16-bit circle (60000, then 10000,
40000, 50000, each comparing above the head under the wraparound
comparator) and insert seq 60000 again: the existing seq-60000 packet lies
beyond the comparator's half-epoch horizon, so the duplicate is prepended
rather than dropped, and the frame holds two packets with sequence
60000 — contradicting the claim that an exact duplicate is dropped
leaving exactly one packet for that sequence. -/
theorem add_coded_unit_dup_cex :
    wrapNode.cdata.map (fun x => x.seqno) = [60000, 50000, 40000, 10000, 60000] ∧
    (wrapNode.cdata.map (fun x => x.seqno)).count 60000 = 2 :=
  ⟨by decide, by decide⟩

theorem ctzAux_succ (f w : Nat) :
    ctzAux (f + 1) w = if w % 2 = 1 then 0 else ctzAux f (w / 2) + 1 := rfl

theorem bitlenAux_succ (f w : Nat) :
    bitlenAux (f + 1) w = if w = 0 then 0 else bitlenAux f (w / 2) + 1 := rfl

theorem rbtAux_succ (f w c b : Nat) :
    rbtAux (f + 1) w c b =
      if w % 2 = 0 then rbtAux f (w / 2) (c + 1) b
      else rbtAux f (w / 2) 0 (max b c) := rfl

theorem lzrAux_succ (f w c b : Nat) :
    lzrAux (f + 1) w c b =
      if w % 2 = 0 then lzrAux f (w / 2) (c + 1) (max b (c + 1))
      else lzrAux f (w / 2) 0 b := rfl

theorem gapLoop_succ (f g w : Nat) :
    gapLoop (f + 1) g w = if w = 0 then g else gapLoop f (max g (ctz64 w)) (w / 2) := rfl

theorem div2_lt_pow (w f : Nat) (h : w < 2 ^ (f + 1)) : w / 2 < 2 ^ f := by
  have hp : (2 : Nat) ^ (f + 1) = 2 ^ f * 2 := pow_succ 2 f
  omega

theorem ctzAux_fuel : ∀ (f k w : Nat), 0 < w → w < 2 ^ f →
    ctzAux (f + k) w = ctzAux f w := by
  intro f
  induction f with
  | zero => intro k w h0 hlt; omega
  | succ n ih =>
    intro k w h0 hlt
    rw [show n + 1 + k = (n + k) + 1 from by omega]
    rcases Nat.mod_two_eq_zero_or_one w with hpar | hpar
    · rw [ctzAux_succ, if_neg (by omega), ctzAux_succ, if_neg (by omega)]
      rw [ih k (w / 2) (by omega) (div2_lt_pow w n hlt)]
    · rw [ctzAux_succ, if_pos hpar, ctzAux_succ, if_pos hpar]

theorem ctz64_odd (w : Nat) (hpar : w % 2 = 1) : ctz64 w = 0 := by
  show ctzAux (63 + 1) w = 0
  rw [ctzAux_succ, if_pos hpar]

theorem ctz64_even (w : Nat) (hpar : w % 2 = 0) (h0 : 0 < w) (hlt : w < 2 ^ 64) :
    ctz64 w = ctz64 (w / 2) + 1 := by
  show ctzAux (63 + 1) w = ctzAux 64 (w / 2) + 1
  rw [ctzAux_succ, if_neg (by omega)]
  rw [show ctzAux 64 (w / 2) = ctzAux (63 + 1) (w / 2) from rfl]
  rw [show ctzAux (63 + 1) (w / 2) = ctzAux 63 (w / 2) from
    ctzAux_fuel 63 1 (w / 2) (by omega) (div2_lt_pow w 63 hlt)]

theorem bitlenAux_zero : ∀ f : Nat, bitlenAux f 0 = 0 := by
  intro f
  cases f with
  | zero => rfl
  | succ n => rw [bitlenAux_succ, if_pos rfl]

theorem bitlenAux_fuel : ∀ (f k w : Nat), w < 2 ^ f →
    bitlenAux (f + k) w = bitlenAux f w := by
  intro f
  induction f with
  | zero =>
    intro k w hlt
    have h0 : w = 0 := by omega
    subst h0
    rw [bitlenAux_zero, bitlenAux_zero]
  | succ n ih =>
    intro k w hlt
    rw [show n + 1 + k = (n + k) + 1 from by omega]
    by_cases h0 : w = 0
    · subst h0; rw [bitlenAux_zero, bitlenAux_zero]
    · rw [bitlenAux_succ, if_neg h0, bitlenAux_succ, if_neg h0]
      rw [ih k (w / 2) (div2_lt_pow w n hlt)]

theorem bitlen64_zero : bitlen64 0 = 0 := bitlenAux_zero 64

theorem bitlen64_step (w : Nat) (h0 : w ≠ 0) (hlt : w < 2 ^ 64) :
    bitlen64 w = bitlen64 (w / 2) + 1 := by
  show bitlenAux (63 + 1) w = bitlenAux 64 (w / 2) + 1
  rw [bitlenAux_succ, if_neg h0]
  rw [show bitlenAux 64 (w / 2) = bitlenAux (63 + 1) (w / 2) from rfl]
  rw [show bitlenAux (63 + 1) (w / 2) = bitlenAux 63 (w / 2) from
    bitlenAux_fuel 63 1 (w / 2) (div2_lt_pow w 63 hlt)]

theorem rbtAux_zero : ∀ (f c b : Nat), rbtAux f 0 c b = b := by
  intro f
  induction f with
  | zero => intro c b; rfl
  | succ n ih =>
    intro c b
    rw [rbtAux_succ, if_pos (by omega)]
    exact ih (c + 1) b

theorem rbtAux_acc : ∀ (f w c b : Nat), rbtAux f w c b = max b (rbtAux f w c 0) := by
  intro f
  induction f with
  | zero => intro w c b; simp [rbtAux]
  | succ n ih =>
    intro w c b
    rcases Nat.mod_two_eq_zero_or_one w with hpar | hpar
    · rw [rbtAux_succ, if_pos hpar, rbtAux_succ, if_pos hpar]
      rw [ih (w / 2) (c + 1) b]
    · rw [rbtAux_succ, if_neg (by omega), rbtAux_succ, if_neg (by omega)]
      rw [ih (w / 2) 0 (max b c), ih (w / 2) 0 (max 0 c)]
      omega

theorem rbtAux_shift : ∀ (f w c : Nat), 0 < w → w < 2 ^ f → f ≤ 64 →
    rbtAux f w c 0 = max (c + ctz64 w) (rbtAux f w 0 0) := by
  intro f
  induction f with
  | zero => intro w c h0 hlt _; omega
  | succ n ih =>
    intro w c h0 hlt hf
    have hlt64 : w < 2 ^ 64 :=
      lt_of_lt_of_le hlt (Nat.pow_le_pow_right (by norm_num) hf)
    rcases Nat.mod_two_eq_zero_or_one w with hpar | hpar
    · have h02 : 0 < w / 2 := by omega
      have h2 : w / 2 < 2 ^ n := div2_lt_pow w n hlt
      have hn : n ≤ 64 := by omega
      rw [rbtAux_succ, if_pos hpar, rbtAux_succ, if_pos hpar]
      rw [ih (w / 2) (c + 1) h02 h2 hn, ih (w / 2) 1 h02 h2 hn]
      rw [ctz64_even w hpar h0 hlt64]
      omega
    · rw [rbtAux_succ, if_neg (by omega), rbtAux_succ, if_neg (by omega)]
      rw [ctz64_odd w hpar]
      rw [rbtAux_acc n (w / 2) 0 (max 0 c), rbtAux_acc n (w / 2) 0 (max 0 0)]
      omega

theorem gapLoop_eq : ∀ (f g w : Nat), w < 2 ^ f → f ≤ 64 →
    gapLoop f g w = max g (rbtAux f w 0 0) := by
  intro f
  induction f with
  | zero =>
    intro g w hlt _
    have h0 : w = 0 := by omega
    subst h0
    simp [gapLoop, rbtAux]
  | succ n ih =>
    intro g w hlt hf
    have hlt64 : w < 2 ^ 64 :=
      lt_of_lt_of_le hlt (Nat.pow_le_pow_right (by norm_num) hf)
    by_cases h0 : w = 0
    · subst h0
      rw [gapLoop_succ, if_pos rfl, rbtAux_zero]
      omega
    · have h2 : w / 2 < 2 ^ n := div2_lt_pow w n hlt
      have hn : n ≤ 64 := by omega
      rw [gapLoop_succ, if_neg h0]
      rw [ih (max g (ctz64 w)) (w / 2) h2 hn]
      rcases Nat.mod_two_eq_zero_or_one w with hpar | hpar
      · rw [rbtAux_succ, if_pos hpar]
        rw [rbtAux_shift n (w / 2) 1 (by omega) h2 hn]
        rw [ctz64_even w hpar (by omega) hlt64]
        omega
      · rw [rbtAux_succ, if_neg (by omega)]
        rw [ctz64_odd w hpar]
        rw [rbtAux_acc n (w / 2) 0 (max 0 0)]
        omega

theorem lzrAux_le : ∀ (f w c b : Nat), lzrAux f w c b ≤ max b (c + f) := by
  intro f
  induction f with
  | zero => intro w c b; simp [lzrAux]
  | succ n ih =>
    intro w c b
    rcases Nat.mod_two_eq_zero_or_one w with hpar | hpar
    · rw [lzrAux_succ, if_pos hpar]
      have := ih (w / 2) (c + 1) (max b (c + 1))
      omega
    · rw [lzrAux_succ, if_neg (by omega)]
      have := ih (w / 2) 0 b
      omega

theorem lzrAux_eq : ∀ (f w c b : Nat), w < 2 ^ f → f ≤ 64 → c ≤ b →
    lzrAux f w c b =
      max b (max (rbtAux f w c 0)
        (if w = 0 then c + f else f - bitlen64 w)) := by
  intro f
  induction f with
  | zero =>
    intro w c b hlt _ hcb
    have h0 : w = 0 := by omega
    subst h0
    rw [show lzrAux 0 0 c b = b from rfl, show rbtAux 0 0 c 0 = 0 from rfl,
      if_pos rfl]
    omega
  | succ n ih =>
    intro w c b hlt hf hcb
    have hlt64 : w < 2 ^ 64 :=
      lt_of_lt_of_le hlt (Nat.pow_le_pow_right (by norm_num) hf)
    have h2 : w / 2 < 2 ^ n := div2_lt_pow w n hlt
    have hn : n ≤ 64 := by omega
    by_cases h0 : w = 0
    · subst h0
      rw [lzrAux_succ, if_pos (by omega)]
      rw [ih 0 (c + 1) (max b (c + 1)) (by positivity) hn (by omega)]
      rw [rbtAux_zero, rbtAux_zero]
      rw [if_pos rfl, if_pos rfl]
      omega
    · rcases Nat.mod_two_eq_zero_or_one w with hpar | hpar
      · have h02 : 0 < w / 2 := by omega
        rw [lzrAux_succ, if_pos hpar]
        rw [ih (w / 2) (c + 1) (max b (c + 1)) h2 hn (by omega)]
        rw [rbtAux_succ, if_pos hpar]
        rw [if_neg (by omega), if_neg h0]
        rw [bitlen64_step w h0 hlt64]
        have hge : c + 1 ≤ rbtAux n (w / 2) (c + 1) 0 := by
          rw [rbtAux_shift n (w / 2) (c + 1) h02 h2 hn]
          omega
        omega
      · rw [lzrAux_succ, if_neg (by omega)]
        rw [ih (w / 2) 0 b h2 hn (by omega)]
        rw [show rbtAux (n + 1) w c 0 = rbtAux n (w / 2) 0 (max 0 c) from by
          rw [rbtAux_succ, if_neg (by omega)]]
        rw [rbtAux_acc n (w / 2) 0 (max 0 c)]
        rw [if_neg h0]
        rw [bitlen64_step w h0 hlt64]
        by_cases h02 : w / 2 = 0
        · rw [if_pos h02]
          rw [h02, bitlen64_zero]
          rw [h02, rbtAux_zero] at *
          omega
        · rw [if_neg h02]
          omega

set_option maxRecDepth 10000 in
/-- C8 (amended): for every flushed 64-bit word, compute_longest_gap
updates the recorded longest gap to the maximum of its previous value and
the longest contiguous run of unset bits anywhere in the word — interior
runs included, since the trailing-zero count is re-taken after every right
shift — so the recorded value is the running maximum over all flushed
words of the per-word longest zero run (an all-zero word contributing 64,
an all-ones word contributing 0). -/
theorem compute_longest_gap_eq_longest_zero_run (g w : Nat)
    (hg : g ≤ 64) (hw : w < 2 ^ 64) :
    compute_longest_gap g w = max g (longestZeroRun64 w) := by
  unfold compute_longest_gap
  split_ifs with h1 h2 h3
  · have hle : longestZeroRun64 w ≤ 64 := by
      have := lzrAux_le 64 w 0 0
      simpa [longestZeroRun64] using this
    omega
  · subst h2
    rw [show longestZeroRun64 0 = 64 from by decide]
    omega
  · subst h3
    rw [show longestZeroRun64 18446744073709551615 = 0 from by decide]
    omega
  · rw [gapLoop_eq 64 (max g (clz64 w)) w hw (le_refl 64)]
    have hM2 := lzrAux_eq 64 w 0 0 hw (le_refl 64) (le_refl 0)
    rw [if_neg h2] at hM2
    rw [show longestZeroRun64 w = lzrAux 64 w 0 0 from rfl, hM2]
    rw [show clz64 w = 64 - bitlen64 w from rfl]
    omega

set_option maxRecDepth 10000 in
/-- Witness for C8 at a concrete input: with previous gap 1 and the word
having only bits 0 and 63 set, the update yields the 62-bit interior run. -/
theorem compute_longest_gap_eq_longest_zero_run_witness :
    ((1 : Nat) ≤ 64 ∧ (9223372036854775809 : Nat) < 2 ^ 64) ∧
    compute_longest_gap 1 9223372036854775809 =
      max 1 (longestZeroRun64 9223372036854775809) :=
  ⟨⟨by decide, by decide⟩,
    compute_longest_gap_eq_longest_zero_run 1 9223372036854775809
      (by decide) (by decide)⟩

set_option maxRecDepth 10000 in
/-- Counterexample for C8 as stated: for the word with only bits 0 and 63
set, both edge-touching runs are empty, so the spec's edge-only update
leaves the gap at 0, yet compute_longest_gap records the 62-bit interior
run of unset bits — interior runs do contribute. -/
theorem compute_longest_gap_edge_cex :
    compute_longest_gap 0 9223372036854775809 = 62 ∧
    longestGapSpecEdge 0 9223372036854775809 = 0 ∧
    longestZeroRun64 9223372036854775809 = 62 :=
  ⟨by decide, by decide, by decide⟩
